import Mathlib

/-!
Verification development for the balance aggregation and valuation engine of
the safejet exchange backend (`wallet.service.ts`).

Modelling conventions:
* Decimal.js values are modelled as exact rationals (`ℚ`), following the
  spec's Decimal Arithmetic Layer contract (exact base-10 arithmetic,
  lossless string round-trip).  String-valued decimal fields of the source
  are carried as `String` wherever the source parses them (`new Decimal(s)`),
  and the parse is modelled by `parseDec` together with `decAccepts`:
  `parseDec` yields the exact rational value of every string the
  constructor accepts with a finite value — an optionally signed decimal
  literal or `0x`/`0b`/`0o` radix literal — while `decAccepts` adds the two
  accepted non-finite spellings `Infinity`/`NaN`; the constructor throws
  exactly on the strings `decAccepts` rejects.  Non-finite Decimal values
  have no exact-rational counterpart: `parseDec` maps their spellings to
  `none`, so runs containing them fall outside the `Except.ok` domain the
  claims are stated over, and no claim quantifies over such strings.
* JavaScript falsy-string coalescing `s || '0'` on string fields is
  `normStr`: the empty string (and a missing value, encoded as `""`) falls
  back to `"0"`.
* A thrown exception / the service's catch-and-rethrow is `Except.error`.
* `Array.prototype.sort` with the source's comparator is modelled by the
  stable `List.insertionSort` over the relation `cmpBal a b ≤ 0`; the
  comparator's `toNumber` conversion is modelled exactly (sign-preserving),
  and `localeCompare` as lexicographic string comparison.
-/

attribute [local semireducible] Rat.add Rat.mul Rat.sub Rat.inv

/-- Token row as joined onto a wallet-balance row (`balance.token` in the
source).  `currentPrice` is the raw decimal string of the entity column;
`""` encodes a missing (null/undefined) price. -/
structure Tok where
  symbol : String
  baseSymbol : String
  name : String
  blockchain : String
  networkVersion : String
  decimals : Nat
  currentPrice : String
deriving DecidableEq, Repr

/-- Raw wallet-balance row (one element of the `balances` array fetched for
the user's active wallets): the `balance` amount string, the balance `type`
(`"spot"` or `"funding"`), and the joined token. -/
structure Rec where
  balance : String
  type : String
  token : Tok
deriving DecidableEq, Repr

/-- Per-network contribution (`networkBalance` object in the source).  The
source stores the raw amount string and the `toString` of the usd value;
both are value-faithful, so the model stores the parsed rational values. -/
structure NetBal where
  blockchain : String
  networkVersion : String
  balance : ℚ
  type : String
  usdValue : ℚ
deriving DecidableEq, Repr

/-- Aggregated balance entry (the values of the `combinedBalances` map). -/
structure Entry where
  symbol : String
  baseSymbol : String
  name : String
  decimals : Nat
  balance : ℚ
  usdValue : ℚ
  type : String
  token : Tok
  networks : List NetBal
deriving DecidableEq, Repr

/-- Numeric digit value of a decimal digit character. -/
def digitVal (c : Char) : Nat := c.toNat - 48

/-- Value of a digit list read in base 10. -/
def natOfDigits (l : List Char) : Nat := l.foldl (fun a c => a * 10 + digitVal c) 0

/-- Nonempty all-digit character list. -/
def isDigits (l : List Char) : Bool := !l.isEmpty && l.all Char.isDigit

/-- Parse the mantissa part `digits | digits. | digits.digits | .digits` of a
decimal literal. -/
def parseMantissa (l : List Char) : Option ℚ :=
  let intPart := l.takeWhile Char.isDigit
  let rest := l.dropWhile Char.isDigit
  match rest with
  | [] => if intPart.isEmpty then none else some (natOfDigits intPart : ℚ)
  | c :: frac =>
    if c = '.' then
      if frac.all Char.isDigit && (!intPart.isEmpty || !frac.isEmpty) then
        some ((natOfDigits intPart : ℚ) + (natOfDigits frac : ℚ) / (10 : ℚ) ^ frac.length)
      else none
    else none

/-- Parse an optionally signed exponent. -/
def parseExp (l : List Char) : Option Int :=
  match l with
  | '+' :: r => if isDigits r then some (natOfDigits r : Int) else none
  | '-' :: r => if isDigits r then some (-(natOfDigits r : Int)) else none
  | r => if isDigits r then some (natOfDigits r : Int) else none

/-- Parse the body of an unsigned decimal literal: mantissa with an
optional `e`/`E` decimal exponent (a power of ten). -/
def parseDecString (l : List Char) : Option ℚ :=
  let m := l.takeWhile (fun c => c != 'e' && c != 'E')
  let rest := l.dropWhile (fun c => c != 'e' && c != 'E')
  match rest with
  | [] => parseMantissa m
  | _ :: er =>
    match parseMantissa m, parseExp er with
    | some q, some ex => some (q * (10 : ℚ) ^ ex)
    | _, _ => none

/-- Numeric value of a (case-insensitive) hexadecimal digit character. -/
def hexDigitVal (c : Char) : Nat :=
  if c.isDigit then c.toNat - 48
  else if decide ('a' ≤ c) && decide (c ≤ 'f') then c.toNat - 87
  else c.toNat - 55

/-- Is `c` a digit of base `b` (2, 8 or 16; hex digits case-insensitive,
as the source library's radix patterns carry the `i` flag)? -/
def isBaseDigit (b : Nat) (c : Char) : Bool :=
  if b = 16 then
    c.isDigit || (decide ('a' ≤ c) && decide (c ≤ 'f')) ||
      (decide ('A' ≤ c) && decide (c ≤ 'F'))
  else 48 ≤ c.toNat && c.toNat < 48 + b

/-- Value of a digit list read in base `b`. -/
def natOfBaseDigits (b : Nat) (l : List Char) : Nat :=
  l.foldl (fun a c => a * b + hexDigitVal c) 0

/-- Mantissa of a radix literal in base `b`: `digits`, `digits.`,
`digits.digits` or `.digits`. -/
def parseRadixMantissa (b : Nat) (l : List Char) : Option ℚ :=
  let intPart := l.takeWhile (isBaseDigit b)
  let rest := l.dropWhile (isBaseDigit b)
  match rest with
  | [] => if intPart.isEmpty then none else some (natOfBaseDigits b intPart : ℚ)
  | c :: frac =>
    if c = '.' then
      if frac.all (isBaseDigit b) && (!intPart.isEmpty || !frac.isEmpty) then
        some ((natOfBaseDigits b intPart : ℚ) +
          (natOfBaseDigits b frac : ℚ) / (b : ℚ) ^ frac.length)
      else none
    else none

/-- Body of a radix literal after its `0x`/`0b`/`0o` prefix: base-`b`
mantissa with an optional `p`/`P` exponent `p[+-]?digits`, read as a power
of two (the source library's binary exponent for radix strings). -/
def parseRadix (b : Nat) (l : List Char) : Option ℚ :=
  let m := l.takeWhile (fun c => c != 'p' && c != 'P')
  let rest := l.dropWhile (fun c => c != 'p' && c != 'P')
  match rest with
  | [] => parseRadixMantissa b m
  | _ :: er =>
    match parseRadixMantissa b m, parseExp er with
    | some q, some ex => some (q * (2 : ℚ) ^ ex)
    | _, _ => none

/-- Parse of an unsigned literal the Decimal constructor accepts with a
finite value: a `0x`/`0b`/`0o` radix literal (case-insensitive prefix) or
a plain decimal literal. -/
def parseUnsigned (l : List Char) : Option ℚ :=
  match l with
  | '0' :: c :: r =>
    if c = 'x' || c = 'X' then parseRadix 16 r
    else if c = 'b' || c = 'B' then parseRadix 2 r
    else if c = 'o' || c = 'O' then parseRadix 8 r
    else parseDecString ('0' :: c :: r)
  | _ => parseDecString l

/-- Finite-value parse of a string, modelling `new Decimal(s)`: `some` of
the exact rational value whenever the constructor accepts `s` with a
finite value — an optionally signed decimal literal
`(digits[.digits?]? | .digits)([eE][+-]?digits)?` or radix literal with
optional binary exponent — and `none` otherwise.  `none` covers both the
strings on which the constructor throws and the two accepted non-finite
spellings `Infinity`/`NaN` (distinguished by `decAccepts`): non-finite
Decimal values have no counterpart in the exact-rational model, so runs
containing them lie outside the `Except.ok` domain this embedding reasons
about, and no claim quantifies over them. -/
def parseDec (s : String) : Option ℚ :=
  match s.data with
  | [] => none
  | '+' :: r => parseUnsigned r
  | '-' :: r => (parseUnsigned r).map (fun q => -q)
  | l => parseUnsigned l

/-- JavaScript falsy coalescing `s || '0'` for decimal-string fields: the
empty string (modelling null/undefined/empty) falls back to `"0"`. -/
def normStr (s : String) : String := if s = "" then "0" else s

/-- Merge key built by the source as `baseSymbol + '_' + type`. -/
def mkKey (b t : String) : String := b ++ "_" ++ t

/-- Merge key of a raw record. -/
def keyR (r : Rec) : String := mkKey r.token.baseSymbol r.type

/-- Merge key under which an aggregated entry is stored (its `baseSymbol` and
`type` are those of the record that created it). -/
def keyE (e : Entry) : String := mkKey e.baseSymbol e.type

/-- The `networkBalance` object built for one record. -/
def mkNetBal (r : Rec) (amt usd : ℚ) : NetBal :=
  { blockchain := r.token.blockchain
    networkVersion := r.token.networkVersion
    balance := amt
    type := r.type
    usdValue := usd }

/-- Merge of one record's amount, usd value and network contribution into an
existing aggregated entry (the `combinedBalances.has(key)` branch). -/
def mergeEntry (e : Entry) (amt usd : ℚ) (nb : NetBal) : Entry :=
  { e with
    balance := e.balance + amt
    usdValue := e.usdValue + usd
    networks := e.networks ++ [nb] }

/-- Fresh aggregated entry created on the first occurrence of a key, carrying
the record's token display metadata. -/
def newEntry (r : Rec) (amt usd : ℚ) : Entry :=
  { symbol := r.token.symbol
    baseSymbol := r.token.baseSymbol
    name := r.token.name
    decimals := r.token.decimals
    balance := amt
    usdValue := usd
    type := r.type
    token := r.token
    networks := [mkNetBal r amt usd] }

/-- Insert one parsed record into the accumulator: merge into the (unique)
entry with the record's key, or append a fresh entry at the end — the
insertion-ordered `Map` of the source. -/
def addRec (r : Rec) (amt usd : ℚ) : List Entry → List Entry
  | [] => [newEntry r amt usd]
  | e :: es =>
    if keyE e = keyR r then mergeEntry e amt usd (mkNetBal r amt usd) :: es
    else e :: addRec r amt usd es

/-- One iteration of the `balances.forEach` body: parse the amount (with the
`|| '0'` fallback) and the token's current price (with the `|| '0'`
fallback), compute `usdValue = amount × price`, and insert.  A parse failure
is the thrown Decimal constructor error. -/
def step (acc : List Entry) (r : Rec) : Except String (List Entry) :=
  match parseDec (normStr r.balance) with
  | none => Except.error r.balance
  | some amt =>
    match parseDec (normStr r.token.currentPrice) with
    | none => Except.error r.token.currentPrice
    | some price => Except.ok (addRec r amt (amt * price) acc)

/-- The source's sort comparator: for two entries with non-zero usd value the
(sign of the) difference `valueB - valueA`, an entry with value before one
without, and zero-value entries by string comparison of `symbol`. -/
def cmpBal (a b : Entry) : ℚ :=
  if a.usdValue ≠ 0 ∧ b.usdValue ≠ 0 then b.usdValue - a.usdValue
  else if a.usdValue ≠ 0 then -1
  else if b.usdValue ≠ 0 then 1
  else if a.symbol < b.symbol then -1
  else if b.symbol < a.symbol then 1
  else 0

/-- Sort relation induced by the comparator: `a` may stay before `b`. -/
def entryLe (a b : Entry) : Prop := cmpBal a b ≤ 0

instance : DecidableRel entryLe :=
  fun a b => inferInstanceAs (Decidable (cmpBal a b ≤ 0))

/-- The aggregation pass `processBalancesWithNetworks`: fold all records into
the insertion-ordered accumulator, then sort its values with the source's
comparator. -/
def processBalancesWithNetworks (l : List Rec) : Except String (List Entry) :=
  (List.foldlM step [] l).map (fun acc => List.insertionSort entryLe acc)

deriving instance DecidableEq for Except

/-- Type filter applied by the balance query (`balance.type = :type` when a
type parameter is given). -/
def typeFiltered (t : Option String) (recs : List Rec) : List Rec :=
  match t with
  | some ty => recs.filter (fun r => r.type == ty)
  | none => recs

/-- Zero-balance filter: the processed list itself when `showZeroBalances`,
otherwise only the entries whose usd value is not exactly zero
(`!new Decimal(b.usdValue).isZero()`). -/
def displayList (showZero : Bool) (es : List Entry) : List Entry :=
  if showZero then es else es.filter (fun b => decide (b.usdValue ≠ 0))

/-- The `calculateTotal` helper: fold of
`total + amount.times(price).toNumber()` where amount is the entry's
(already canonical) balance and price parses the entry's stored token's
`currentPrice` with the `|| '0'` fallback; a malformed price throws. -/
def calculateTotal (balances : List Entry) : Except String ℚ :=
  List.foldlM
    (fun (total : ℚ) b =>
      match parseDec (normStr b.token.currentPrice) with
      | none => Except.error b.token.currentPrice
      | some price => Except.ok (total + b.balance * price))
    (0 : ℚ) balances

/-- Row returned by the 24h-change loop's token repository lookup
(`tokenRepository.findOne({ where: { symbol } })`): its current price and
24h change percentage, as exact values. -/
structure PriceRow where
  currentPrice : ℚ
  changePercent24h : ℚ
deriving DecidableEq, Repr

/-- The 24h-change loop over the displayed balances: for each entry whose
symbol resolves to a token and whose amount is positive, accumulate
`(totalChange24h, totalValue)` by the entry's amount times the looked-up
price, and that value times `changePercent24h / 100`. -/
def loopTotals (lookup : String → Option PriceRow) (balances : List Entry) : ℚ × ℚ :=
  List.foldl
    (fun (acc : ℚ × ℚ) b =>
      match lookup b.symbol with
      | none => acc
      | some t =>
        if (0 : ℚ) < b.balance then
          (acc.1 + b.balance * t.currentPrice * (t.changePercent24h / 100),
           acc.2 + b.balance * t.currentPrice)
        else acc)
    ((0 : ℚ), (0 : ℚ)) balances

/-- JavaScript `Array.prototype.slice(start, end)`: negative indices count
from the end, both are clamped to `[0, length]`, and the result is the
segment from the resolved start (inclusive) to the resolved end
(exclusive). -/
def jsSlice {α : Type} (l : List α) (s e : Int) : List α :=
  let len : Int := l.length
  let s1 : Int := if s < 0 then max (len + s) 0 else min s len
  let e1 : Int := if e < 0 then max (len + e) 0 else min e len
  (l.drop s1.toNat).take (e1 - s1).toNat

/-- The `Math.ceil(total / limit)` of the pagination block for a positive
limit.  (For a non-positive limit the JavaScript expression produces
Infinity or NaN, which has no counterpart here; no claim depends on that
branch and it is mapped to 0.) -/
def jsCeilDiv (n : Nat) (d : Int) : Int :=
  if 0 < d then ((n : Int) + d - 1) / d else 0

/-- Pagination block of the response. -/
structure PageInfo where
  total : Nat
  page : Int
  limit : Int
  totalPages : Int
  hasMore : Bool
deriving DecidableEq, Repr

/-- The `getBalances` response.  `spotTotal`/`fundingTotal` are `Option`
because the empty-wallet early return omits those fields. -/
structure Resp where
  balances : List Entry
  total : ℚ
  spotTotal : Option ℚ
  fundingTotal : Option ℚ
  change24h : ℚ
  changePercent24h : ℚ
  pagination : PageInfo
deriving DecidableEq, Repr

/-- The `getBalances` service method.  `wallets` is the number of active
wallets found for the user; `recs` the joined balance rows fetched for them
(already restricted by the optional type filter via `typeFiltered`);
`page`/`limit` the raw pagination parameters; `lookup` the token repository
lookup used by the 24h-change loop.  The coerced `page`/`limit` of lines
251-252 are used only in the empty-wallet response; the pagination slice
and the pagination block use the raw values.  Errors thrown while
processing are rethrown by the catch block, i.e. propagate. -/
def getBalances (wallets : Nat) (recs : List Rec) (t : Option String)
    (page limit : Int) (showZero : Bool) (lookup : String → Option PriceRow) :
    Except String Resp :=
  let pageC : Int := max 1 page
  let limitC : Int := max 1 limit
  if wallets = 0 then
    Except.ok
      { balances := []
        total := 0
        spotTotal := none
        fundingTotal := none
        change24h := 0
        changePercent24h := 0
        pagination :=
          { total := 0, page := pageC, limit := limitC, totalPages := 0, hasMore := false } }
  else
    match processBalancesWithNetworks (typeFiltered t recs) with
    | Except.error e => Except.error e
    | Except.ok es =>
      let display := displayList showZero es
      match calculateTotal (display.filter (fun b => b.type == "spot")) with
      | Except.error e => Except.error e
      | Except.ok spotTotal =>
        match calculateTotal (display.filter (fun b => b.type == "funding")) with
        | Except.error e => Except.error e
        | Except.ok fundingTotal =>
          let startIndex : Int := (page - 1) * limit
          let paginated := jsSlice display startIndex (startIndex + limit)
          let tc := loopTotals lookup display
          let changePercent : ℚ := if 0 < tc.2 then tc.1 / tc.2 * 100 else 0
          Except.ok
            { balances := paginated
              total := spotTotal + fundingTotal
              spotTotal := some spotTotal
              fundingTotal := some fundingTotal
              change24h := tc.1
              changePercent24h := changePercent
              pagination :=
                { total := display.length
                  page := page
                  limit := limit
                  totalPages := jsCeilDiv display.length limit
                  hasMore := page * limit < display.length } }

/-! ## Parsed values of a record

Under a successful run every record's amount and price parse; these give the
parsed values for stating sum characterizations. -/

/-- Parsed amount of a record (with the `|| '0'` fallback). -/
def amtOf (r : Rec) : ℚ := (parseDec (normStr r.balance)).getD 0

/-- Parsed current price of a record's token (with the `|| '0'` fallback). -/
def priceOf (r : Rec) : ℚ := (parseDec (normStr r.token.currentPrice)).getD 0

/-- Normalized usd value of one record: amount times price. -/
def usdOf (r : Rec) : ℚ := amtOf r * priceOf r

/-! ## Merge-key injectivity -/

theorem string_data_inj {s t : String} (h : s.data = t.data) : s = t := by
  cases s; cases t; exact congrArg String.mk h

theorem mkKey_inj_of_eq_type (b1 b2 t : String) (h : mkKey b1 t = mkKey b2 t) :
    b1 = b2 := by
  have h2 := congrArg String.data h
  simp only [mkKey, String.data_append] at h2
  rw [List.append_assoc, List.append_assoc] at h2
  have hl : b1.data.length = b2.data.length := by
    have h3 := congrArg List.length h2
    simp only [List.length_append] at h3
    omega
  exact string_data_inj (List.append_inj h2 hl).1

theorem mkKey_spot_ne_funding (b1 b2 : String) :
    mkKey b1 "spot" ≠ mkKey b2 "funding" := by
  intro h
  have h2 := congrArg String.data h
  simp only [mkKey, String.data_append] at h2
  have hr := congrArg List.reverse h2
  simp at hr

/-! ## Aggregation fold invariants -/

/-- Per-entry sum invariant: the entry's totals are the exact sums over its
network contributions. -/
def netSumOk (e : Entry) : Prop :=
  e.balance = (e.networks.map NetBal.balance).sum ∧
  e.usdValue = (e.networks.map NetBal.usdValue).sum

theorem netSumOk_addRec (r : Rec) (amt usd : ℚ) :
    ∀ acc : List Entry, (∀ e ∈ acc, netSumOk e) →
      ∀ e ∈ addRec r amt usd acc, netSumOk e := by
  intro acc
  induction acc with
  | nil =>
    intro _ e he
    simp only [addRec, List.mem_singleton] at he
    subst he
    constructor <;> simp [newEntry, mkNetBal, netSumOk]
  | cons a as ih =>
    intro hacc e he
    by_cases hk : keyE a = keyR r
    · simp only [addRec, if_pos hk, List.mem_cons] at he
      rcases he with he | he
      · subst he
        have ha := hacc a (by simp)
        refine ⟨?_, ?_⟩ <;>
          simp [mergeEntry, mkNetBal, netSumOk, ha.1, ha.2]
      · exact hacc e (by simp [he])
    · simp only [addRec, if_neg hk, List.mem_cons] at he
      rcases he with he | he
      · subst he; exact hacc e (by simp)
      · exact ih (fun x hx => hacc x (by simp [hx])) e he

theorem step_ok_eq {acc out : List Entry} {r : Rec}
    (h : step acc r = Except.ok out) :
    out = addRec r (amtOf r) (usdOf r) acc := by
  unfold step at h
  cases h1 : parseDec (normStr r.balance) with
  | none => rw [h1] at h; exact absurd h (by simp)
  | some amt =>
    rw [h1] at h
    cases h2 : parseDec (normStr r.token.currentPrice) with
    | none => rw [h2] at h; exact absurd h (by simp)
    | some price =>
      rw [h2] at h
      simp only [Except.ok.injEq] at h
      rw [← h]
      simp [amtOf, usdOf, priceOf, h1, h2]

theorem netSumOk_foldlM :
    ∀ (l : List Rec) (acc out : List Entry),
      List.foldlM step acc l = Except.ok out →
      (∀ e ∈ acc, netSumOk e) → ∀ e ∈ out, netSumOk e := by
  intro l
  induction l with
  | nil =>
    intro acc out h hacc
    simp only [List.foldlM_nil, pure, Except.pure, Except.ok.injEq] at h
    subst h; exact hacc
  | cons r rs ih =>
    intro acc out h hacc
    rw [List.foldlM_cons] at h
    cases hs : step acc r with
    | error e =>
      rw [hs] at h
      exact absurd h (by simp [Bind.bind, Except.bind])
    | ok acc2 =>
      rw [hs] at h
      simp only [Bind.bind, Except.bind] at h
      refine ih acc2 out h ?_
      rw [step_ok_eq hs]
      exact netSumOk_addRec r (amtOf r) (usdOf r) acc hacc

/-! ## Per-key characterization of the aggregation -/

/-- Sum of a projection over the entries stored under key `k`. -/
def accSum (p : Entry → ℚ) (k : String) (es : List Entry) : ℚ :=
  ((es.filter (fun e => decide (keyE e = k))).map p).sum

/-- Sum of a per-record value over the records with merge key `k`. -/
def recSum (dval : Rec → ℚ) (k : String) (l : List Rec) : ℚ :=
  ((l.filter (fun r => decide (keyR r = k))).map dval).sum

/-- Total parsed amount of the records with merge key `k`. -/
def keyAmt (k : String) (l : List Rec) : ℚ := recSum amtOf k l

/-- Total normalized usd value of the records with merge key `k`. -/
def keyUsd (k : String) (l : List Rec) : ℚ := recSum usdOf k l

theorem keyE_newEntry (r : Rec) (amt usd : ℚ) :
    keyE (newEntry r amt usd) = keyR r := rfl

theorem keyE_mergeEntry (e : Entry) (amt usd : ℚ) (nb : NetBal) :
    keyE (mergeEntry e amt usd nb) = keyE e := rfl

theorem accSum_addRec (p : Entry → ℚ) (d : ℚ) (r : Rec) (amt usd : ℚ)
    (hm : ∀ e nb, p (mergeEntry e amt usd nb) = p e + d)
    (hn : p (newEntry r amt usd) = d) (k : String) :
    ∀ acc, accSum p k (addRec r amt usd acc) =
      accSum p k acc + (if keyR r = k then d else 0) := by
  intro acc
  induction acc with
  | nil =>
    by_cases hk : keyR r = k
    · simp [accSum, addRec, List.filter_cons, keyE_newEntry, hk, hn]
    · simp [accSum, addRec, List.filter_cons, keyE_newEntry, hk, hn]
  | cons a as ih =>
    by_cases hka : keyE a = keyR r
    · simp only [addRec, if_pos hka]
      by_cases hk : keyR r = k
      · have hak : keyE a = k := hka.trans hk
        have h1 : accSum p k (mergeEntry a amt usd (mkNetBal r amt usd) :: as)
            = p (mergeEntry a amt usd (mkNetBal r amt usd)) + accSum p k as := by
          simp [accSum, List.filter_cons, keyE_mergeEntry, hak]
        have h2 : accSum p k (a :: as) = p a + accSum p k as := by
          simp [accSum, List.filter_cons, hak]
        rw [h1, h2, hm, if_pos hk]
        ring
      · have hak : ¬ keyE a = k := fun h => hk (hka.symm.trans h)
        have h1 : accSum p k (mergeEntry a amt usd (mkNetBal r amt usd) :: as)
            = accSum p k as := by
          simp [accSum, List.filter_cons, keyE_mergeEntry, hak]
        have h2 : accSum p k (a :: as) = accSum p k as := by
          simp [accSum, List.filter_cons, hak]
        rw [h1, h2, if_neg hk]
        simp
    · simp only [addRec, if_neg hka]
      by_cases hak : keyE a = k
      · have h1 : accSum p k (a :: addRec r amt usd as)
            = p a + accSum p k (addRec r amt usd as) := by
          simp [accSum, List.filter_cons, hak]
        have h2 : accSum p k (a :: as) = p a + accSum p k as := by
          simp [accSum, List.filter_cons, hak]
        rw [h1, h2, ih]
        ring
      · have h1 : accSum p k (a :: addRec r amt usd as)
            = accSum p k (addRec r amt usd as) := by
          simp [accSum, List.filter_cons, hak]
        have h2 : accSum p k (a :: as) = accSum p k as := by
          simp [accSum, List.filter_cons, hak]
        rw [h1, h2, ih]

theorem accSum_foldlM (p : Entry → ℚ) (dval : Rec → ℚ)
    (hm : ∀ r e nb, p (mergeEntry e (amtOf r) (usdOf r) nb) = p e + dval r)
    (hn : ∀ r, p (newEntry r (amtOf r) (usdOf r)) = dval r) (k : String) :
    ∀ (l : List Rec) (acc out : List Entry),
      List.foldlM step acc l = Except.ok out →
      accSum p k out = accSum p k acc + recSum dval k l := by
  intro l
  induction l with
  | nil =>
    intro acc out h
    simp only [List.foldlM_nil, pure, Except.pure, Except.ok.injEq] at h
    subst h
    simp [recSum]
  | cons r rs ih =>
    intro acc out h
    rw [List.foldlM_cons] at h
    cases hs : step acc r with
    | error e =>
      rw [hs] at h
      exact absurd h (by simp [Bind.bind, Except.bind])
    | ok acc2 =>
      rw [hs] at h
      simp only [Bind.bind, Except.bind] at h
      have h2 := ih acc2 out h
      rw [step_ok_eq hs] at h2
      rw [h2, accSum_addRec p (dval r) r (amtOf r) (usdOf r) (hm r) (hn r) k]
      by_cases hk : keyR r = k
      · simp [recSum, List.filter_cons, hk]
        ring
      · simp [recSum, List.filter_cons, hk]

theorem mem_keys_addRec (k : String) (r : Rec) (amt usd : ℚ) :
    ∀ acc, (k ∈ (addRec r amt usd acc).map keyE ↔ k ∈ acc.map keyE ∨ k = keyR r) := by
  intro acc
  induction acc with
  | nil => simp [addRec, keyE_newEntry]
  | cons a as ih =>
    by_cases hka : keyE a = keyR r
    · simp only [addRec, if_pos hka, List.map_cons, keyE_mergeEntry, List.mem_cons]
      constructor
      · rintro (h | h)
        · exact Or.inl (Or.inl h)
        · exact Or.inl (Or.inr h)
      · rintro ((h | h) | h)
        · exact Or.inl h
        · exact Or.inr h
        · exact Or.inl (by rw [h, ← hka])
    · simp only [addRec, if_neg hka, List.map_cons, List.mem_cons, ih]
      tauto

theorem mem_keys_foldlM (k : String) :
    ∀ (l : List Rec) (acc out : List Entry),
      List.foldlM step acc l = Except.ok out →
      (k ∈ out.map keyE ↔ k ∈ acc.map keyE ∨ ∃ r ∈ l, keyR r = k) := by
  intro l
  induction l with
  | nil =>
    intro acc out h
    simp only [List.foldlM_nil, pure, Except.pure, Except.ok.injEq] at h
    subst h
    simp
  | cons r rs ih =>
    intro acc out h
    rw [List.foldlM_cons] at h
    cases hs : step acc r with
    | error e =>
      rw [hs] at h
      exact absurd h (by simp [Bind.bind, Except.bind])
    | ok acc2 =>
      rw [hs] at h
      simp only [Bind.bind, Except.bind] at h
      have h2 := ih acc2 out h
      rw [step_ok_eq hs] at h2
      rw [h2, mem_keys_addRec k r (amtOf r) (usdOf r) acc]
      constructor
      · rintro ((h3 | h3) | h3)
        · exact Or.inl h3
        · exact Or.inr ⟨r, by simp, h3.symm⟩
        · rcases h3 with ⟨x, hx, hk⟩
          exact Or.inr ⟨x, by simp [hx], hk⟩
      · rintro (h3 | ⟨x, hx, hk⟩)
        · exact Or.inl (Or.inl h3)
        · rcases List.mem_cons.mp hx with h4 | h4
          · subst h4; exact Or.inl (Or.inr hk.symm)
          · exact Or.inr ⟨x, h4, hk⟩

theorem keysNodup_addRec (r : Rec) (amt usd : ℚ) :
    ∀ acc : List Entry, (acc.map keyE).Nodup →
      ((addRec r amt usd acc).map keyE).Nodup := by
  intro acc
  induction acc with
  | nil => simp [addRec]
  | cons a as ih =>
    intro hnd
    simp only [List.map_cons, List.nodup_cons] at hnd
    by_cases hka : keyE a = keyR r
    · simp only [addRec, if_pos hka, List.map_cons, keyE_mergeEntry, List.nodup_cons]
      exact hnd
    · simp only [addRec, if_neg hka, List.map_cons, List.nodup_cons]
      refine ⟨?_, ih hnd.2⟩
      rw [mem_keys_addRec]
      rintro (h | h)
      · exact hnd.1 h
      · exact hka (by rw [← h])

theorem keysNodup_foldlM :
    ∀ (l : List Rec) (acc out : List Entry),
      List.foldlM step acc l = Except.ok out →
      (acc.map keyE).Nodup → (out.map keyE).Nodup := by
  intro l
  induction l with
  | nil =>
    intro acc out h hnd
    simp only [List.foldlM_nil, pure, Except.pure, Except.ok.injEq] at h
    subst h; exact hnd
  | cons r rs ih =>
    intro acc out h hnd
    rw [List.foldlM_cons] at h
    cases hs : step acc r with
    | error e =>
      rw [hs] at h
      exact absurd h (by simp [Bind.bind, Except.bind])
    | ok acc2 =>
      rw [hs] at h
      simp only [Bind.bind, Except.bind] at h
      refine ih acc2 out h ?_
      rw [step_ok_eq hs]
      exact keysNodup_addRec r (amtOf r) (usdOf r) acc hnd

/-! ## Process-level characterization -/

theorem filter_key_eq_singleton :
    ∀ (es : List Entry), (es.map keyE).Nodup → ∀ e ∈ es,
      es.filter (fun x => decide (keyE x = keyE e)) = [e] := by
  intro es
  induction es with
  | nil => simp
  | cons a as ih =>
    intro hnd e he
    simp only [List.map_cons, List.nodup_cons] at hnd
    rcases List.mem_cons.mp he with rfl | he2
    · have h1 : List.filter (fun x => decide (keyE x = keyE e)) as = [] := by
        rw [List.filter_eq_nil_iff]
        intro x hx
        simp only [decide_eq_true_eq]
        intro hkx
        exact hnd.1 (hkx ▸ List.mem_map_of_mem keyE hx)
      simp [List.filter_cons, h1]
    · have hne : ¬ keyE a = keyE e := fun h =>
        hnd.1 (h ▸ List.mem_map_of_mem keyE he2)
      simp [List.filter_cons, hne, ih hnd.2 e he2]

theorem accSum_eq_of_mem {es : List Entry} (hnd : (es.map keyE).Nodup)
    {e : Entry} (he : e ∈ es) (p : Entry → ℚ) : accSum p (keyE e) es = p e := by
  rw [accSum, filter_key_eq_singleton es hnd e he]
  simp

theorem accSum_perm (p : Entry → ℚ) (k : String) {es1 es2 : List Entry}
    (h : es1.Perm es2) : accSum p k es1 = accSum p k es2 :=
  List.Perm.sum_eq ((h.filter _).map p)

theorem process_ok_elim {l : List Rec} {es : List Entry}
    (h : processBalancesWithNetworks l = Except.ok es) :
    ∃ acc, List.foldlM step [] l = Except.ok acc ∧
      es = List.insertionSort entryLe acc := by
  unfold processBalancesWithNetworks at h
  cases hf : List.foldlM step [] l with
  | error e => rw [hf] at h; exact absurd h (by simp [Except.map])
  | ok acc =>
    rw [hf] at h
    simp only [Except.map, Except.ok.injEq] at h
    exact ⟨acc, rfl, h.symm⟩

theorem process_perm_fold {l : List Rec} {es acc : List Entry}
    (_hf : List.foldlM step [] l = Except.ok acc)
    (hs : es = List.insertionSort entryLe acc) : es.Perm acc := by
  rw [hs]
  exact List.perm_insertionSort entryLe acc

theorem process_keys_nodup {l : List Rec} {es : List Entry}
    (h : processBalancesWithNetworks l = Except.ok es) :
    (es.map keyE).Nodup := by
  rcases process_ok_elim h with ⟨acc, hf, hs⟩
  have hperm := (process_perm_fold hf hs).map keyE
  rw [List.Perm.nodup_iff hperm]
  exact keysNodup_foldlM l [] acc hf (by simp)

theorem process_mem_key {l : List Rec} {es : List Entry}
    (h : processBalancesWithNetworks l = Except.ok es) (k : String) :
    k ∈ es.map keyE ↔ ∃ r ∈ l, keyR r = k := by
  rcases process_ok_elim h with ⟨acc, hf, hs⟩
  have hperm := (process_perm_fold hf hs).map keyE
  rw [hperm.mem_iff, mem_keys_foldlM k l [] acc hf]
  simp

theorem process_entry_totals {l : List Rec} {es : List Entry}
    (h : processBalancesWithNetworks l = Except.ok es) :
    ∀ e ∈ es, e.balance = keyAmt (keyE e) l ∧ e.usdValue = keyUsd (keyE e) l := by
  rcases process_ok_elim h with ⟨acc, hf, hs⟩
  have hperm := process_perm_fold hf hs
  have hnd := process_keys_nodup h
  intro e he
  constructor
  · have h1 := accSum_eq_of_mem hnd he Entry.balance
    have h2 := accSum_perm Entry.balance (keyE e) hperm
    have h3 := accSum_foldlM Entry.balance amtOf
      (fun r e2 nb => rfl) (fun r => rfl) (keyE e) l [] acc hf
    have h4 : accSum Entry.balance (keyE e) [] = 0 := by simp [accSum]
    rw [← h1, h2, h3, h4, keyAmt]
    ring
  · have h1 := accSum_eq_of_mem hnd he Entry.usdValue
    have h2 := accSum_perm Entry.usdValue (keyE e) hperm
    have h3 := accSum_foldlM Entry.usdValue usdOf
      (fun r e2 nb => rfl) (fun r => rfl) (keyE e) l [] acc hf
    have h4 : accSum Entry.usdValue (keyE e) [] = 0 := by simp [accSum]
    rw [← h1, h2, h3, h4, keyUsd]
    ring

/-! ## Comparator order properties -/

theorem cmpBal_pos_pos {a b : Entry} (ha : a.usdValue ≠ 0) (hb : b.usdValue ≠ 0) :
    cmpBal a b = b.usdValue - a.usdValue := by
  simp [cmpBal, ha, hb]

theorem cmpBal_pos_zero {a b : Entry} (ha : a.usdValue ≠ 0) (hb : b.usdValue = 0) :
    cmpBal a b = -1 := by
  simp [cmpBal, ha, hb]

theorem cmpBal_zero_pos {a b : Entry} (ha : a.usdValue = 0) (hb : b.usdValue ≠ 0) :
    cmpBal a b = 1 := by
  simp [cmpBal, ha, hb]

theorem cmpBal_zero_zero {a b : Entry} (ha : a.usdValue = 0) (hb : b.usdValue = 0) :
    cmpBal a b =
      if a.symbol < b.symbol then -1 else if b.symbol < a.symbol then 1 else 0 := by
  simp [cmpBal, ha, hb]

theorem strCmp_le_iff (s t : String) :
    ((if s < t then (-1 : ℚ) else if t < s then 1 else 0) ≤ 0) ↔ s ≤ t := by
  by_cases h1 : s < t
  · simp [h1, le_of_lt h1]
  · by_cases h2 : t < s
    · simp [h1, h2, not_le.mpr h2]
    · simp [h1, h2, not_lt.mp h2]

instance : IsTotal Entry entryLe := by
  constructor
  intro a b
  by_cases za : a.usdValue = 0
  · by_cases zb : b.usdValue = 0
    · simp only [entryLe, cmpBal_zero_zero za zb, cmpBal_zero_zero zb za,
        strCmp_le_iff]
      exact le_total a.symbol b.symbol
    · right
      rw [entryLe, cmpBal_pos_zero zb za]
      norm_num
  · by_cases zb : b.usdValue = 0
    · left
      rw [entryLe, cmpBal_pos_zero za zb]
      norm_num
    · simp only [entryLe, cmpBal_pos_pos za zb, cmpBal_pos_pos zb za]
      rcases le_total a.usdValue b.usdValue with h | h
      · right; linarith
      · left; linarith

instance : IsTrans Entry entryLe := by
  constructor
  intro a b c hab hbc
  by_cases za : a.usdValue = 0
  · by_cases zb : b.usdValue = 0
    · by_cases zc : c.usdValue = 0
      · rw [entryLe, cmpBal_zero_zero za zb, strCmp_le_iff] at hab
        rw [entryLe, cmpBal_zero_zero zb zc, strCmp_le_iff] at hbc
        rw [entryLe, cmpBal_zero_zero za zc, strCmp_le_iff]
        exact le_trans hab hbc
      · rw [entryLe, cmpBal_zero_pos zb zc] at hbc
        norm_num at hbc
    · rw [entryLe, cmpBal_zero_pos za zb] at hab
      norm_num at hab
  · by_cases zc : c.usdValue = 0
    · rw [entryLe, cmpBal_pos_zero za zc]
      norm_num
    · by_cases zb : b.usdValue = 0
      · rw [entryLe, cmpBal_zero_pos zb zc] at hbc
        norm_num at hbc
      · rw [entryLe, cmpBal_pos_pos za zb] at hab
        rw [entryLe, cmpBal_pos_pos zb zc] at hbc
        rw [entryLe, cmpBal_pos_pos za zc]
        linarith

/-- The order asserted by the sort claim: non-zero entries precede zero
entries, non-zero entries are non-increasing in usd value, and zero entries
are ascending by symbol. -/
def claimOrder (a b : Entry) : Prop :=
  (a.usdValue ≠ 0 ∧ b.usdValue ≠ 0 ∧ b.usdValue ≤ a.usdValue) ∨
  (a.usdValue ≠ 0 ∧ b.usdValue = 0) ∨
  (a.usdValue = 0 ∧ b.usdValue = 0 ∧ a.symbol ≤ b.symbol)

theorem entryLe_claimOrder {a b : Entry} (h : entryLe a b) : claimOrder a b := by
  by_cases za : a.usdValue = 0
  · by_cases zb : b.usdValue = 0
    · rw [entryLe, cmpBal_zero_zero za zb, strCmp_le_iff] at h
      exact Or.inr (Or.inr ⟨za, zb, h⟩)
    · rw [entryLe, cmpBal_zero_pos za zb] at h
      norm_num at h
  · by_cases zb : b.usdValue = 0
    · exact Or.inr (Or.inl ⟨za, zb⟩)
    · rw [entryLe, cmpBal_pos_pos za zb] at h
      exact Or.inl ⟨za, zb, by linarith⟩

theorem process_pairwise {l : List Rec} {es : List Entry}
    (h : processBalancesWithNetworks l = Except.ok es) :
    es.Pairwise entryLe := by
  rcases process_ok_elim h with ⟨acc, _hf, hs⟩
  rw [hs]
  exact List.sorted_insertionSort entryLe acc

/-! ## Sample data for concrete instances -/

def usdtEth : Tok :=
  { symbol := "USDT-ERC20", baseSymbol := "USDT", name := "Tether USD",
    blockchain := "ethereum", networkVersion := "mainnet", decimals := 6,
    currentPrice := "1.00" }

def usdtTron : Tok := { usdtEth with symbol := "USDT-TRC20", blockchain := "trx" }

def recUsdtEth : Rec := { balance := "100.50", type := "spot", token := usdtEth }

def recUsdtTron : Rec := { balance := "50.25", type := "spot", token := usdtTron }

def cexTokA : Tok :=
  { symbol := "AAA-1", baseSymbol := "AAA", name := "A one", blockchain := "chain1",
    networkVersion := "mainnet", decimals := 8, currentPrice := "2" }

def cexTokB : Tok := { cexTokA with symbol := "AAA-2", blockchain := "chain2" }

def cexRecA : Rec := { balance := "1", type := "spot", token := cexTokA }

def cexRecB : Rec := { balance := "1", type := "spot", token := cexTokB }

def btcTok : Tok :=
  { symbol := "BTC", baseSymbol := "BTC", name := "Bitcoin", blockchain := "bitcoin",
    networkVersion := "mainnet", decimals := 8, currentPrice := "30000" }

def ethTok : Tok :=
  { symbol := "ETH", baseSymbol := "ETH", name := "Ether", blockchain := "ethereum",
    networkVersion := "mainnet", decimals := 18, currentPrice := "1000" }

def dogeTok : Tok :=
  { symbol := "DOGE", baseSymbol := "DOGE", name := "Dogecoin",
    blockchain := "dogecoin", networkVersion := "mainnet", decimals := 8,
    currentPrice := "0" }

def btcRec : Rec := { balance := "0.001", type := "spot", token := btcTok }

def ethRec : Rec := { balance := "0.01", type := "funding", token := ethTok }

def dogeRec : Rec := { balance := "5", type := "spot", token := dogeTok }

/-! ## Claim C1 -/

/-- C1: every aggregated entry produced by `processBalancesWithNetworks` has
its total amount equal to the exact sum of its network contributions'
amounts, and its total usd value equal to the exact sum of their usd
values. -/
theorem c1_aggregate_sum_invariant (l : List Rec) (es : List Entry)
    (h : processBalancesWithNetworks l = Except.ok es) :
    ∀ e ∈ es, e.balance = (e.networks.map NetBal.balance).sum ∧
      e.usdValue = (e.networks.map NetBal.usdValue).sum := by
  rcases process_ok_elim h with ⟨acc, hf, hs⟩
  intro e he
  have he2 : e ∈ acc := by rw [hs, List.mem_insertionSort] at he; exact he
  exact netSumOk_foldlM l [] acc hf (by simp) e he2

def c1Entry : Entry :=
  { symbol := "USDT-ERC20", baseSymbol := "USDT", name := "Tether USD",
    decimals := 6, balance := 603/4, usdValue := 603/4, type := "spot",
    token := usdtEth,
    networks :=
      [{ blockchain := "ethereum", networkVersion := "mainnet", balance := 201/2,
         type := "spot", usdValue := 201/2 },
       { blockchain := "trx", networkVersion := "mainnet", balance := 201/4,
         type := "spot", usdValue := 201/4 }] }

/-- C1 witness: the invariant evaluated on a concrete two-network merge. -/
theorem c1_witness :
    processBalancesWithNetworks [recUsdtEth, recUsdtTron] = Except.ok [c1Entry] ∧
    (c1Entry.balance = (c1Entry.networks.map NetBal.balance).sum ∧
     c1Entry.usdValue = (c1Entry.networks.map NetBal.usdValue).sum) :=
  ⟨by decide,
   c1_aggregate_sum_invariant [recUsdtEth, recUsdtTron] [c1Entry] (by decide)
     c1Entry (by simp)⟩

/-! ## Claim C2 -/

/-- C2 counterexample: two records sharing the merge key but carrying
different display symbols.  Swapping the input order changes the aggregated
entry's `symbol` (first-seen metadata), so the two runs do not yield
identical entries even though the totals agree: the claim's "each
aggregated entry is otherwise identical" fails. -/
theorem c2_counterexample :
    List.Perm [cexRecA, cexRecB] [cexRecB, cexRecA] ∧
    (processBalancesWithNetworks [cexRecA, cexRecB]).map
      (fun es => es.map Entry.symbol) = Except.ok ["AAA-1"] ∧
    (processBalancesWithNetworks [cexRecB, cexRecA]).map
      (fun es => es.map Entry.symbol) = Except.ok ["AAA-2"] ∧
    ("AAA-1" : String) ≠ "AAA-2" :=
  ⟨List.Perm.swap cexRecB cexRecA [], by decide, by decide, by decide⟩

/-- C2 (amended): for permuted inputs the two runs produce the same set of
merge keys, and entries under the same key have equal total amount and
equal total usd value; the entries need not be otherwise identical, since
display metadata is taken from the first-seen record. -/
theorem c2_amended_merge_totals {l1 l2 : List Rec} {es1 es2 : List Entry}
    (hp : l1.Perm l2)
    (h1 : processBalancesWithNetworks l1 = Except.ok es1)
    (h2 : processBalancesWithNetworks l2 = Except.ok es2) :
    (∀ k, (∃ e ∈ es1, keyE e = k) ↔ (∃ e ∈ es2, keyE e = k)) ∧
    (∀ e1 ∈ es1, ∀ e2 ∈ es2, keyE e1 = keyE e2 →
      e1.balance = e2.balance ∧ e1.usdValue = e2.usdValue) := by
  constructor
  · intro k
    have m1 := process_mem_key h1 k
    have m2 := process_mem_key h2 k
    rw [List.mem_map] at m1 m2
    rw [m1, m2]
    constructor
    · rintro ⟨r, hr, hk⟩
      exact ⟨r, hp.mem_iff.mp hr, hk⟩
    · rintro ⟨r, hr, hk⟩
      exact ⟨r, hp.mem_iff.mpr hr, hk⟩
  · intro e1 he1 e2 he2 hk
    have t1 := process_entry_totals h1 e1 he1
    have t2 := process_entry_totals h2 e2 he2
    have ha : keyAmt (keyE e1) l1 = keyAmt (keyE e1) l2 :=
      List.Perm.sum_eq ((hp.filter _).map _)
    have hu : keyUsd (keyE e1) l1 = keyUsd (keyE e1) l2 :=
      List.Perm.sum_eq ((hp.filter _).map _)
    refine ⟨?_, ?_⟩
    · rw [t1.1, t2.1, ← hk, ha]
    · rw [t1.2, t2.2, ← hk, hu]

def c2e1 : Entry :=
  { symbol := "AAA-1", baseSymbol := "AAA", name := "A one", decimals := 8,
    balance := 2, usdValue := 4, type := "spot", token := cexTokA,
    networks :=
      [{ blockchain := "chain1", networkVersion := "mainnet", balance := 1,
         type := "spot", usdValue := 2 },
       { blockchain := "chain2", networkVersion := "mainnet", balance := 1,
         type := "spot", usdValue := 2 }] }

def c2e2 : Entry :=
  { symbol := "AAA-2", baseSymbol := "AAA", name := "A one", decimals := 8,
    balance := 2, usdValue := 4, type := "spot", token := cexTokB,
    networks :=
      [{ blockchain := "chain2", networkVersion := "mainnet", balance := 1,
         type := "spot", usdValue := 2 },
       { blockchain := "chain1", networkVersion := "mainnet", balance := 1,
         type := "spot", usdValue := 2 }] }

/-- C2 witness: the amended statement evaluated on a concrete swapped pair. -/
theorem c2_witness :
    (∀ k, (∃ e ∈ [c2e1], keyE e = k) ↔ (∃ e ∈ [c2e2], keyE e = k)) ∧
    (∀ e1 ∈ [c2e1], ∀ e2 ∈ [c2e2], keyE e1 = keyE e2 →
      e1.balance = e2.balance ∧ e1.usdValue = e2.usdValue) :=
  c2_amended_merge_totals (List.Perm.swap cexRecB cexRecA [])
    (by decide) (by decide)

/-! ## Claim C3 -/

/-- C3: the merged (and, under the zero filter, filtered) sequence is
pairwise ordered by the claimed total order: non-zero entries precede zero
entries, non-zero entries are non-increasing in total usd value, and
zero-value entries are ascending by symbol. -/
theorem c3_sorted_display (l : List Rec) (showZero : Bool) (es : List Entry)
    (h : processBalancesWithNetworks l = Except.ok es) :
    (displayList showZero es).Pairwise claimOrder := by
  have hp := (process_pairwise h).imp (fun hab => entryLe_claimOrder hab)
  cases showZero
  · exact List.Pairwise.sublist (List.filter_sublist es) hp
  · simpa [displayList] using hp

def c3Btc : Entry :=
  { symbol := "BTC", baseSymbol := "BTC", name := "Bitcoin", decimals := 8,
    balance := 1/1000, usdValue := 30, type := "spot", token := btcTok,
    networks :=
      [{ blockchain := "bitcoin", networkVersion := "mainnet", balance := 1/1000,
         type := "spot", usdValue := 30 }] }

def c3Eth : Entry :=
  { symbol := "ETH", baseSymbol := "ETH", name := "Ether", decimals := 18,
    balance := 1/100, usdValue := 10, type := "funding", token := ethTok,
    networks :=
      [{ blockchain := "ethereum", networkVersion := "mainnet", balance := 1/100,
         type := "funding", usdValue := 10 }] }

def c3Doge : Entry :=
  { symbol := "DOGE", baseSymbol := "DOGE", name := "Dogecoin", decimals := 8,
    balance := 5, usdValue := 0, type := "spot", token := dogeTok,
    networks :=
      [{ blockchain := "dogecoin", networkVersion := "mainnet", balance := 5,
         type := "spot", usdValue := 0 }] }

/-- C3 witness: the sort order evaluated on a concrete run mixing valued and
zero-value entries, given to the engine in scrambled order. -/
theorem c3_witness : (displayList true [c3Btc, c3Eth, c3Doge]).Pairwise claimOrder :=
  c3_sorted_display [dogeRec, ethRec, btcRec] true [c3Btc, c3Eth, c3Doge] (by decide)

/-! ## Claim C9 -/

/-- C9: with balance types drawn from `{"spot", "funding"}`, the string merge
key `baseSymbol ++ "_" ++ type` identifies the `(baseSymbol, type)` pair:
two records map to the same key exactly when both components agree — for
every base symbol, including ones containing underscores; in particular a
spot and a funding holding are never merged. -/
theorem c9_merge_key_injective (r1 r2 : Rec)
    (h1 : r1.type = "spot" ∨ r1.type = "funding")
    (h2 : r2.type = "spot" ∨ r2.type = "funding") :
    keyR r1 = keyR r2 ↔
      (r1.token.baseSymbol = r2.token.baseSymbol ∧ r1.type = r2.type) := by
  constructor
  · intro h
    unfold keyR at h
    rcases h1 with ht1 | ht1 <;> rcases h2 with ht2 | ht2 <;> rw [ht1, ht2] at h
    · exact ⟨mkKey_inj_of_eq_type _ _ _ h, ht1.trans ht2.symm⟩
    · exact absurd h (mkKey_spot_ne_funding _ _)
    · exact absurd h.symm (mkKey_spot_ne_funding _ _)
    · exact ⟨mkKey_inj_of_eq_type _ _ _ h, ht1.trans ht2.symm⟩
  · rintro ⟨hb, ht⟩
    unfold keyR mkKey
    rw [hb, ht]

def c9RecSpot : Rec :=
  { balance := "1", type := "spot",
    token := { symbol := "X", baseSymbol := "AB_C", name := "x", blockchain := "b",
               networkVersion := "m", decimals := 0, currentPrice := "1" } }

def c9RecFunding : Rec := { c9RecSpot with type := "funding" }

/-- C9 witness: a spot and a funding record for the same (underscored) base
symbol have different merge keys. -/
theorem c9_witness : keyR c9RecSpot ≠ keyR c9RecFunding := fun h =>
  absurd
    ((c9_merge_key_injective c9RecSpot c9RecFunding (Or.inl rfl) (Or.inr rfl)).mp h).2
    (by decide)

/-! ## calculateTotal characterization -/

/-- Parsed current price of a token (with the `|| '0'` fallback). -/
def tokPrice (t : Tok) : ℚ := (parseDec (normStr t.currentPrice)).getD 0

theorem calcTotal_go (l : List Entry)
    (hp : ∀ e ∈ l, (parseDec (normStr e.token.currentPrice)).isSome) :
    ∀ init : ℚ,
      List.foldlM
        (fun (total : ℚ) b =>
          match parseDec (normStr b.token.currentPrice) with
          | none => Except.error b.token.currentPrice
          | some price => Except.ok (total + b.balance * price))
        init l =
      Except.ok (init + (l.map (fun e => e.balance * tokPrice e.token)).sum) := by
  induction l with
  | nil => intro init; simp [List.foldlM_nil, pure, Except.pure]
  | cons e es ih =>
    intro init
    have he := hp e (by simp)
    rcases Option.isSome_iff_exists.mp he with ⟨p, hpe⟩
    rw [List.foldlM_cons, hpe]
    have h2 :
        (match some p with
          | none => Except.error e.token.currentPrice
          | some price => Except.ok (init + e.balance * price)) =
        Except.ok (init + e.balance * p) := rfl
    rw [h2]
    simp only [Bind.bind, Except.bind]
    rw [ih (fun x hx => hp x (by simp [hx])) (init + e.balance * p)]
    have hp2 : tokPrice e.token = p := by simp [tokPrice, hpe]
    simp only [List.map_cons, List.sum_cons, hp2]
    congr 1
    ring

theorem calcTotal_ok (l : List Entry)
    (hp : ∀ e ∈ l, (parseDec (normStr e.token.currentPrice)).isSome) :
    calculateTotal l =
      Except.ok ((l.map (fun e => e.balance * tokPrice e.token)).sum) := by
  unfold calculateTotal
  rw [calcTotal_go l hp 0]
  norm_num

/-! ## Entry token prices parse under a successful run -/

theorem step_ok_price {acc out : List Entry} {r : Rec}
    (h : step acc r = Except.ok out) :
    (parseDec (normStr r.token.currentPrice)).isSome := by
  unfold step at h
  cases h1 : parseDec (normStr r.balance) with
  | none => rw [h1] at h; exact absurd h (by simp)
  | some amt =>
    rw [h1] at h
    cases h2 : parseDec (normStr r.token.currentPrice) with
    | none => rw [h2] at h; exact absurd h (by simp)
    | some price => simp [h2]

theorem priceOk_addRec (r : Rec) (amt usd : ℚ)
    (hr : (parseDec (normStr r.token.currentPrice)).isSome) :
    ∀ acc : List Entry,
      (∀ e ∈ acc, (parseDec (normStr e.token.currentPrice)).isSome) →
      ∀ e ∈ addRec r amt usd acc,
        (parseDec (normStr e.token.currentPrice)).isSome := by
  intro acc
  induction acc with
  | nil =>
    intro _ e he
    simp only [addRec, List.mem_singleton] at he
    subst he
    exact hr
  | cons a as ih =>
    intro hacc e he
    by_cases hka : keyE a = keyR r
    · simp only [addRec, if_pos hka, List.mem_cons] at he
      rcases he with he | he
      · subst he
        exact hacc a (by simp)
      · exact hacc e (by simp [he])
    · simp only [addRec, if_neg hka, List.mem_cons] at he
      rcases he with he | he
      · subst he; exact hacc e (by simp)
      · exact ih (fun x hx => hacc x (by simp [hx])) e he

theorem priceOk_foldlM :
    ∀ (l : List Rec) (acc out : List Entry),
      List.foldlM step acc l = Except.ok out →
      (∀ e ∈ acc, (parseDec (normStr e.token.currentPrice)).isSome) →
      ∀ e ∈ out, (parseDec (normStr e.token.currentPrice)).isSome := by
  intro l
  induction l with
  | nil =>
    intro acc out h hacc
    simp only [List.foldlM_nil, pure, Except.pure, Except.ok.injEq] at h
    subst h; exact hacc
  | cons r rs ih =>
    intro acc out h hacc
    rw [List.foldlM_cons] at h
    cases hs : step acc r with
    | error e =>
      rw [hs] at h
      exact absurd h (by simp [Bind.bind, Except.bind])
    | ok acc2 =>
      rw [hs] at h
      simp only [Bind.bind, Except.bind] at h
      refine ih acc2 out h ?_
      rw [step_ok_eq hs]
      exact priceOk_addRec r (amtOf r) (usdOf r) (step_ok_price hs) acc hacc

theorem process_prices_ok {l : List Rec} {es : List Entry}
    (h : processBalancesWithNetworks l = Except.ok es) :
    ∀ e ∈ es, (parseDec (normStr e.token.currentPrice)).isSome := by
  rcases process_ok_elim h with ⟨acc, hf, hs⟩
  intro e he
  have he2 : e ∈ acc := by rw [hs, List.mem_insertionSort] at he; exact he
  exact priceOk_foldlM l [] acc hf (by simp) e he2

/-! ## getBalances success-path decomposition -/

theorem mem_displayList {showZero : Bool} {es : List Entry} {e : Entry}
    (h : e ∈ displayList showZero es) : e ∈ es := by
  cases showZero
  · exact List.mem_of_mem_filter h
  · simpa [displayList] using h

/-- The value `calculateTotal` produces on the spot slice of a list. -/
def spotSum (es : List Entry) : ℚ :=
  ((es.filter (fun b => b.type == "spot")).map
    (fun e => e.balance * tokPrice e.token)).sum

/-- The value `calculateTotal` produces on the funding slice of a list. -/
def fundingSum (es : List Entry) : ℚ :=
  ((es.filter (fun b => b.type == "funding")).map
    (fun e => e.balance * tokPrice e.token)).sum

theorem getBalances_ok_process {w : Nat} {recs : List Rec} {t : Option String}
    {page limit : Int} {showZero : Bool} {lookup : String → Option PriceRow}
    {r : Resp} (hw : w ≠ 0)
    (hr : getBalances w recs t page limit showZero lookup = Except.ok r) :
    ∃ es, processBalancesWithNetworks (typeFiltered t recs) = Except.ok es := by
  unfold getBalances at hr
  rw [if_neg hw] at hr
  cases hp : processBalancesWithNetworks (typeFiltered t recs) with
  | error e => rw [hp] at hr; exact absurd hr (by simp)
  | ok es => exact ⟨es, rfl⟩

theorem getBalances_ok_build (w : Nat) (recs : List Rec) (t : Option String)
    (page limit : Int) (showZero : Bool) (lookup : String → Option PriceRow)
    (es : List Entry) (hw : w ≠ 0)
    (hes : processBalancesWithNetworks (typeFiltered t recs) = Except.ok es) :
    getBalances w recs t page limit showZero lookup =
      Except.ok
        { balances :=
            jsSlice (displayList showZero es) ((page - 1) * limit)
              ((page - 1) * limit + limit)
          total := spotSum (displayList showZero es) + fundingSum (displayList showZero es)
          spotTotal := some (spotSum (displayList showZero es))
          fundingTotal := some (fundingSum (displayList showZero es))
          change24h := (loopTotals lookup (displayList showZero es)).1
          changePercent24h :=
            if 0 < (loopTotals lookup (displayList showZero es)).2 then
              (loopTotals lookup (displayList showZero es)).1 /
                (loopTotals lookup (displayList showZero es)).2 * 100
            else 0
          pagination :=
            { total := (displayList showZero es).length
              page := page
              limit := limit
              totalPages := jsCeilDiv (displayList showZero es).length limit
              hasMore := page * limit < (displayList showZero es).length } } := by
  have hdp : ∀ e ∈ displayList showZero es,
      (parseDec (normStr e.token.currentPrice)).isSome :=
    fun e he => process_prices_ok hes e (mem_displayList he)
  have hspot :=
    calcTotal_ok ((displayList showZero es).filter (fun b => b.type == "spot"))
      (fun e he => hdp e (List.mem_of_mem_filter he))
  have hfund :=
    calcTotal_ok ((displayList showZero es).filter (fun b => b.type == "funding"))
      (fun e he => hdp e (List.mem_of_mem_filter he))
  unfold getBalances
  rw [if_neg hw]
  simp only [hes, hspot, hfund, spotSum, fundingSum]

/-! ## Claim C4 -/

def c4TokP1 : Tok :=
  { symbol := "MIX-1", baseSymbol := "MIX", name := "Mix", blockchain := "c1",
    networkVersion := "mainnet", decimals := 8, currentPrice := "1" }

def c4TokP3 : Tok := { c4TokP1 with symbol := "MIX-2", blockchain := "c2", currentPrice := "3" }

def c4RecP1 : Rec := { balance := "1", type := "spot", token := c4TokP1 }

def c4RecP3 : Rec := { balance := "1", type := "spot", token := c4TokP3 }

/-- C4 counterexample: two spot records merge into one entry whose stored
`totalUsdValue` is 4 (1×1 + 1×3), but `calculateTotal` revalues the merged
amount 2 at the first-seen token's price 1, so the reported `spotTotal` is
2, not the sum of `totalUsdValue` over spot entries. -/
theorem c4_counterexample :
    (getBalances 1 [c4RecP1, c4RecP3] none 1 20 true (fun _ => none)).map
      Resp.spotTotal = Except.ok (some 2) ∧
    (processBalancesWithNetworks [c4RecP1, c4RecP3]).map
      (fun es =>
        (((displayList true es).filter (fun b => b.type == "spot")).map
          Entry.usdValue).sum) = Except.ok 4 ∧
    (2 : ℚ) ≠ 4 :=
  ⟨by decide, by decide, by decide⟩

/-- C4 (amended): `spotTotal` equals the sum over the displayed spot entries
of the entry's merged amount times the current price of its first-seen
token (and `fundingTotal` analogously).  This coincides with the sum of
`totalUsdValue` only when all records merged into an entry carry one and
the same price.  Within the model the arithmetic is exact; the source
converts each product to a binary float before accumulating. -/
theorem c4_amended_type_totals {w : Nat} {recs : List Rec} {t : Option String}
    {page limit : Int} {showZero : Bool} {lookup : String → Option PriceRow}
    {r : Resp} {es : List Entry} (hw : w ≠ 0)
    (hes : processBalancesWithNetworks (typeFiltered t recs) = Except.ok es)
    (hr : getBalances w recs t page limit showZero lookup = Except.ok r) :
    r.spotTotal = some (spotSum (displayList showZero es)) ∧
    r.fundingTotal = some (fundingSum (displayList showZero es)) := by
  rw [getBalances_ok_build w recs t page limit showZero lookup es hw hes] at hr
  injection hr with h2
  subst h2
  exact ⟨rfl, rfl⟩

def c4Entry : Entry :=
  { symbol := "MIX-1", baseSymbol := "MIX", name := "Mix", decimals := 8,
    balance := 2, usdValue := 4, type := "spot", token := c4TokP1,
    networks :=
      [{ blockchain := "c1", networkVersion := "mainnet", balance := 1,
         type := "spot", usdValue := 1 },
       { blockchain := "c2", networkVersion := "mainnet", balance := 1,
         type := "spot", usdValue := 3 }] }

def c4Resp : Resp :=
  { balances := [c4Entry]
    total := 2
    spotTotal := some 2
    fundingTotal := some 0
    change24h := 0
    changePercent24h := 0
    pagination := { total := 1, page := 1, limit := 20, totalPages := 1, hasMore := false } }

/-- C4 witness: the amended totals equation evaluated on the concrete
mixed-price run. -/
theorem c4_witness :
    c4Resp.spotTotal = some (spotSum (displayList true [c4Entry])) ∧
    c4Resp.fundingTotal = some (fundingSum (displayList true [c4Entry])) :=
  @c4_amended_type_totals 1 [c4RecP1, c4RecP3] none 1 20 true (fun _ => none)
    c4Resp [c4Entry] (by decide) (by decide) (by decide)

/-! ## Claim C5 -/

/-- C5: the coerced page/limit of lines 251-252 are not used by the
pagination: with raw page -1 (which the claim says is coerced up to 1) the
service returns an empty page and reports `pagination.page = -1`, although
the display set has one entry; the same call with page 1 returns that
entry.  This evaluates the code at the failing input. -/
theorem c5_pagination_raw_params :
    (getBalances 1 [recUsdtEth] none (-1) 20 true (fun _ => none)).map
      (fun r => (r.balances.length, r.pagination.total, r.pagination.page)) =
      Except.ok (0, 1, -1) ∧
    (getBalances 1 [recUsdtEth] none 1 20 true (fun _ => none)).map
      (fun r => r.balances.length) = Except.ok 1 :=
  ⟨by decide, by decide⟩

/-! ## Claim C6 -/

/-- C6: whenever the computed portfolio total value is zero — in particular
for an empty or all-zero portfolio — the returned `changePercent24h` is the
defined value 0 (the guarded branch), never a division by zero. -/
theorem c6_zero_total_change_percent {w : Nat} {recs : List Rec}
    {t : Option String} {page limit : Int} {showZero : Bool}
    {lookup : String → Option PriceRow} {r : Resp}
    (hr : getBalances w recs t page limit showZero lookup = Except.ok r)
    (hv : ∀ es, processBalancesWithNetworks (typeFiltered t recs) = Except.ok es →
      (loopTotals lookup (displayList showZero es)).2 = 0) :
    r.changePercent24h = 0 := by
  by_cases hw : w = 0
  · unfold getBalances at hr
    rw [if_pos hw] at hr
    injection hr with h2
    subst h2
    rfl
  · rcases getBalances_ok_process hw hr with ⟨es, hes⟩
    have hv2 := hv es hes
    rw [getBalances_ok_build w recs t page limit showZero lookup es hw hes] at hr
    injection hr with h2
    subst h2
    simp [hv2]

def c6Resp : Resp :=
  { balances := []
    total := 0
    spotTotal := some 0
    fundingTotal := some 0
    change24h := 0
    changePercent24h := 0
    pagination := { total := 0, page := 1, limit := 20, totalPages := 0, hasMore := false } }

/-- C6 witness: the empty portfolio produces `changePercent24h = 0`. -/
theorem c6_witness : c6Resp.changePercent24h = 0 :=
  @c6_zero_total_change_percent 1 [] none 1 20 true (fun _ => none) c6Resp
    (by decide)
    (fun es hes => by
      rw [show processBalancesWithNetworks (typeFiltered none []) = Except.ok []
          from by decide] at hes
      injection hes with h2
      subst h2
      decide)

/-! ## Claim C7 -/

def c7TokP : Tok :=
  { symbol := "ZZZ-1", baseSymbol := "ZZZ", name := "Zee", blockchain := "z1",
    networkVersion := "mainnet", decimals := 8, currentPrice := "5" }

def c7TokZ : Tok := { c7TokP with symbol := "ZZZ-2", blockchain := "z2", currentPrice := "" }

def c7RecP : Rec := { balance := "1", type := "spot", token := c7TokP }

def c7RecZ : Rec := { balance := "10", type := "spot", token := c7TokZ }

/-- C7 counterexample: a record with a missing price normalizes to usd value
0, yet adding it changes `spotTotal` from 5 to 55 — its amount is revalued
at the first-seen token's price by `calculateTotal` — so it does not
contribute 0 to the value totals as the claim states. -/
theorem c7_counterexample :
    usdOf c7RecZ = 0 ∧
    (getBalances 1 [c7RecP, c7RecZ] none 1 20 true (fun _ => none)).map
      Resp.spotTotal = Except.ok (some 55) ∧
    (getBalances 1 [c7RecP] none 1 20 true (fun _ => none)).map
      Resp.spotTotal = Except.ok (some 5) ∧
    (55 : ℚ) ≠ 5 :=
  ⟨by decide, by decide, by decide, by decide⟩

theorem keyUsd_append_cons (k : String) (l1 l2 : List Rec) (r : Rec)
    (h0 : usdOf r = 0) :
    keyUsd k (l1 ++ r :: l2) = keyUsd k (l1 ++ l2) := by
  by_cases hk : keyR r = k
  · simp [keyUsd, recSum, List.filter_append, List.filter_cons, hk, h0]
  · simp [keyUsd, recSum, List.filter_append, List.filter_cons, hk]

/-- C7 (amended): a record whose token has a missing or zero current price
normalizes to `usdValue = 0` without error, its merge key remains present
in the result set (shown when zero balances are displayed), and it
contributes exactly 0 to its entry's `totalUsdValue` — the entry's usd
value equals that of the run without the record.  However, `spotTotal` /
`fundingTotal` and the 24h loop revalue the entry's merged amount at the
first-seen / looked-up token price, so the record contributes 0 to those
totals only when that price is also missing or zero. -/
theorem c7_amended_zero_price {l1 l2 : List Rec} {r : Rec} {es : List Entry}
    (hp : priceOf r = 0)
    (hes : processBalancesWithNetworks (l1 ++ r :: l2) = Except.ok es) :
    usdOf r = 0 ∧ (∃ e ∈ displayList true es, keyE e = keyR r) ∧
    (∀ e ∈ es, keyE e = keyR r → e.usdValue = keyUsd (keyR r) (l1 ++ l2)) := by
  have h0 : usdOf r = 0 := by rw [usdOf, hp, mul_zero]
  refine ⟨h0, ?_, ?_⟩
  · have hm := process_mem_key hes (keyR r)
    have hex : ∃ x ∈ l1 ++ r :: l2, keyR x = keyR r := ⟨r, by simp, rfl⟩
    rcases List.mem_map.mp (hm.mpr hex) with ⟨e, he, hk⟩
    refine ⟨e, ?_, hk⟩
    simpa [displayList] using he
  · intro e he hk
    have ht := (process_entry_totals hes e he).2
    rw [ht, hk, keyUsd_append_cons (keyR r) l1 l2 r h0]

def c7zEntry : Entry :=
  { symbol := "ZZZ-2", baseSymbol := "ZZZ", name := "Zee", decimals := 8,
    balance := 10, usdValue := 0, type := "spot", token := c7TokZ,
    networks :=
      [{ blockchain := "z2", networkVersion := "mainnet", balance := 10,
         type := "spot", usdValue := 0 }] }

/-- C7 witness: a standalone missing-price record keeps a zero-valued entry
in the result set. -/
theorem c7_witness :
    usdOf c7RecZ = 0 ∧ (∃ e ∈ displayList true [c7zEntry], keyE e = keyR c7RecZ) ∧
    (∀ e ∈ [c7zEntry], keyE e = keyR c7RecZ →
      e.usdValue = keyUsd (keyR c7RecZ) ([] ++ [])) :=
  @c7_amended_zero_price [] [] c7RecZ [c7zEntry] (by decide) (by decide)

/-! ## Claim C8 -/

/-- C10 counterexample: the empty-wallet early return is a successful call
whose response carries `total = 0` but omits the `spotTotal` and
`fundingTotal` fields (modelled as `none`), so on this path the top-level
total is not the sum of the two type totals. -/
theorem c10_counterexample :
    getBalances 0 [] none 1 20 true (fun _ => none) =
      Except.ok
        { balances := [], total := 0, spotTotal := none, fundingTotal := none,
          change24h := 0, changePercent24h := 0,
          pagination :=
            { total := 0, page := 1, limit := 20, totalPages := 0, hasMore := false } } := by
  decide

/-- C10 (amended): on every successful call with at least one active wallet
the top-level `total` equals `spotTotal + fundingTotal` (a monetary value),
and the count of displayed entries is reported only as `pagination.total`;
the empty-wallet response instead carries `total = 0` with the two type
totals absent. -/
theorem c10_amended_total {w : Nat} {recs : List Rec} {t : Option String}
    {page limit : Int} {showZero : Bool} {lookup : String → Option PriceRow}
    {r : Resp} {es : List Entry} (hw : w ≠ 0)
    (hes : processBalancesWithNetworks (typeFiltered t recs) = Except.ok es)
    (hr : getBalances w recs t page limit showZero lookup = Except.ok r) :
    (∃ s f, r.spotTotal = some s ∧ r.fundingTotal = some f ∧ r.total = s + f) ∧
    r.pagination.total = (displayList showZero es).length := by
  rw [getBalances_ok_build w recs t page limit showZero lookup es hw hes] at hr
  injection hr with h2
  subst h2
  exact ⟨⟨_, _, rfl, rfl, rfl⟩, rfl⟩

/-- C10 witness: the amended totals equation on a concrete run. -/
theorem c10_witness :
    (∃ s f, c4Resp.spotTotal = some s ∧ c4Resp.fundingTotal = some f ∧
      c4Resp.total = s + f) ∧
    c4Resp.pagination.total = (displayList true [c4Entry]).length :=
  @c10_amended_total 1 [c4RecP1, c4RecP3] none 1 20 true (fun _ => none)
    c4Resp [c4Entry] (by decide) (by decide) (by decide)
